import Mathlib

/-!
# Shallow embedding of the my-rest-app CRUD service

This file embeds, in Lean, the request-level behaviour of the three code
units of the repository that carry its CRUD contract:

* the in-memory users server (Express, `server.js` variant): route handlers
  `GET /api/users`, `POST /api/users`, `DELETE /api/users/:id`;
* the MySQL-backed tasks server (Express + `mysql2` pool): route handlers
  `GET /api/tasks`, `PATCH /api/tasks/:id`, `DELETE /api/tasks/:id`;
* the Angular client gateway `UserService` (`getUsers`, `addUser`,
  `removeUser`), whose `catchError`/`throwError` pipes map transport
  failures to domain errors.

Conventions of the embedding:

* A JSON body field that may be absent is an `Option`; JavaScript's
  `undefined` is `none`.
* `parseInt` is modelled by `jsParseInt`: an optional sign followed by the
  maximal run of leading decimal digits; `NaN` is `none`.  `NaN` compares
  unequal to every number, so a `none` id matches no stored entity.
* The users `DELETE` handler contains the misspelt fallback `esle { ... }`:
  the `if` body (when taken) runs and responds, and then the expression
  statement `esle` throws a `ReferenceError`; when the `if` body is not
  taken, `esle` throws before any response is sent and the block holding
  `res.status(404)` is never reached (Express turns the uncaught throw into
  a 500).  `UsersDeleteResult` records the store, the response sent by the
  handler itself (if any) and whether the handler threw.
* The tasks handlers `await db.query ...` against the promisified `mysql2`
  pool of the adapter module; a query failure is modelled by a boolean
  `dbFails` parameter (the `catch` branch), and the table `tasks` by a
  `List Task`.  `res.json(rows[0])` on an empty result set serialises
  JavaScript `undefined`, i.e. an empty 200 body, modelled by
  `TaskResponse.undef`.
* The Angular `HttpClient` surfaces both transport failures and non-2xx
  responses on the error channel, modelled by `HttpResult.err`; the
  gateway's `console.error` line is modelled as the log component of the
  result pair.
-/

set_option autoImplicit false

namespace RestApp

/-! ## Data model -/

/-- A user as stored by the in-memory users server.  `req.body` fields that
the client may omit are `Option`s; the id is always set by the server
before the entity is pushed. -/
structure StoredUser where
  id : Int
  name : Option String
  email : Option String
deriving Repr, DecidableEq

/-- A create-request body (`req.body` of `POST /api/users`): every field may
be absent, and a client-supplied id may be present. -/
structure UserBody where
  id : Option Int
  name : Option String
  email : Option String
deriving Repr, DecidableEq

/-- The users server's initial store:
`[{id:1, name:'Mario Rossi', ...}, {id:2, name:'Giulia Bianchi', ...}]`. -/
def initialUsers : List StoredUser :=
  [⟨1, some "Mario Rossi", some "mario@prova.com"⟩,
   ⟨2, some "Giulia Bianchi", some "giulia@prova.com"⟩]

/-- A row of the `tasks` table of the MySQL-backed server. -/
structure Task where
  id : Int
  title : String
  description : String
  completed : Bool
deriving Repr, DecidableEq

/-! ## JavaScript number/string primitives -/

/-- A decimal digit character. -/
def isDigitChar (c : Char) : Bool :=
  '0' ≤ c && c ≤ '9'

/-- Value of a most-significant-first run of decimal digit characters. -/
def digitsValue (ds : List Char) : Nat :=
  ds.foldl (fun a c => 10 * a + (c.toNat - 48)) 0

/-- The unsigned core of `parseInt`: the maximal run of leading decimal
digits, `NaN` (`none`) when there is none. -/
def jsParseIntCore (cs : List Char) : Option Nat :=
  let ds := cs.takeWhile isDigitChar
  if ds.isEmpty then none else some (digitsValue ds)

/-- `parseInt(s)` on the character list of `s`: optional sign, then the
maximal run of leading decimal digits; `NaN` is `none`. -/
def jsParseIntList : List Char → Option Int
  | [] => none
  | c :: cs =>
    if c = '-' then (jsParseIntCore cs).map (fun v => -(v : Int))
    else if c = '+' then (jsParseIntCore cs).map (fun v => (v : Int))
    else (jsParseIntCore (c :: cs)).map (fun v => (v : Int))

/-- `parseInt(s)` (radix 10, the case exercised by the repository). -/
def jsParseInt (s : String) : Option Int :=
  jsParseIntList s.data

/-- Little-endian decimal digits of a natural number, as characters. -/
def toDecRev (n : Nat) : List Char :=
  if _h : n < 10 then [Nat.digitChar n]
  else Nat.digitChar (n % 10) :: toDecRev (n / 10)
decreasing_by exact Nat.div_lt_self (by omega) (by omega)

/-- JavaScript `String(n)` / template interpolation of a non-negative
integer: its decimal digits, most significant first. -/
def jsNumToString (n : Nat) : String :=
  ⟨(toDecRev n).reverse⟩

/-! ## In-memory users server (Express) -/

/-- Id assigned by `POST /api/users`:
`users.length ? Math.max(...users.map(u => u.id)) + 1 : 1`. -/
def nextUserId (users : List StoredUser) : Int :=
  match users.map (fun u => u.id) with
  | [] => 1
  | x :: xs => xs.foldl max x + 1

/-- `POST /api/users`: overwrite `req.body.id` with the next id, push, and
respond 200 with the stored entity. -/
def postUsersHandler (body : UserBody) (users : List StoredUser) :
    (Nat × StoredUser) × List StoredUser :=
  let u : StoredUser := { id := nextUserId users, name := body.name, email := body.email }
  ((200, u), users ++ [u])

/-- `GET /api/users`: respond 200 with the whole store. -/
def getUsersHandler (users : List StoredUser) : Nat × List StoredUser :=
  (200, users)

/-- `users.findIndex(user => user.id === id)` followed by
`users.splice(index, 1)[0]`, fused: the first entity whose id equals the
parsed path id, together with the store without it.  A `NaN` path id
(`none`) matches nothing. -/
def removeFirstById (pid : Option Int) : List StoredUser → Option (StoredUser × List StoredUser)
  | [] => none
  | u :: us =>
    if (match pid with | some n => u.id == n | none => false) then some (u, us)
    else (removeFirstById pid us).map (fun p => (p.1, u :: p.2))

/-- Outcome of one run of the users `DELETE` handler: the store afterwards,
the response the handler itself sent (if any), and whether the handler
threw.  The handler always reaches the misspelt statement `esle` and
throws; the block holding `res.status(404)` is unreachable. -/
structure UsersDeleteResult where
  store : List StoredUser
  sent : Option (Nat × StoredUser)
  threw : Bool
deriving Repr, DecidableEq

/-- `DELETE /api/users/:id`: parse the id, find and splice the entity.  When
found, `res.json(deleted)` (200) is sent and then `esle` throws; when not
found, `esle` throws before any response (Express then answers 500), and
the 404 branch is dead code. -/
def deleteUsersHandler (idParam : String) (users : List StoredUser) : UsersDeleteResult :=
  match removeFirstById (jsParseInt idParam) users with
  | some (deleted, rest) => ⟨rest, some (200, deleted), true⟩
  | none => ⟨users, none, true⟩

/-! ## MySQL-backed tasks server (Express + mysql2 pool) -/

/-- Body of a `GET /api/tasks` response: either the full row set or the
catch branch's error object. -/
inductive TasksListResponse where
  | rows (ts : List Task)
  | errBody (msg : String)
deriving Repr, DecidableEq

/-- `GET /api/tasks`: `SELECT * FROM tasks`, respond 200 with the rows; on a
query failure the catch branch responds 500 with a fixed error body. -/
def getTasksHandler (dbFails : Bool) (db : List Task) : Nat × TasksListResponse :=
  if dbFails then (500, .errBody "Errore nel recupero tasks")
  else (200, .rows db)

/-- Body of a single-task response: an entity, the serialisation of
JavaScript `undefined` (`res.json(rows[0])` on an empty row set), or the
catch branch's error object. -/
inductive TaskResponse where
  | entity (t : Task)
  | undef
  | errBody (msg : String)
deriving Repr, DecidableEq

/-- `UPDATE tasks SET completed = NOT completed WHERE id = ?`. -/
def toggleCompleted (id : Int) (db : List Task) : List Task :=
  db.map (fun t => if t.id == id then { t with completed := !t.completed } else t)

/-- `SELECT * FROM tasks WHERE id = ?`. -/
def selectWhereId (id : Int) (db : List Task) : List Task :=
  db.filter (fun t => t.id == id)

/-- `PATCH /api/tasks/:id`: toggle, re-select, respond 200 with `rows[0]`
(the empty row set yields `undefined`); a query failure takes the catch
branch, a 500 with a fixed error body. -/
def patchTaskHandler (id : Int) (dbFails : Bool) (db : List Task) :
    (Nat × TaskResponse) × List Task :=
  if dbFails then ((500, .errBody "Errore toggle task"), db)
  else
    let db2 := toggleCompleted id db
    match selectWhereId id db2 with
    | [] => ((200, .undef), db2)
    | t :: _ => ((200, .entity t), db2)

/-- Body of a `DELETE /api/tasks/:id` response. -/
inductive DeleteTaskResponse where
  | success
  | errBody (msg : String)
deriving Repr, DecidableEq

/-- `DELETE /api/tasks/:id`: `DELETE FROM tasks WHERE id = ?` and respond
200 `{success: true}` whether or not any row matched; a query failure takes
the catch branch (500). -/
def deleteTaskHandler (id : Int) (dbFails : Bool) (db : List Task) :
    (Nat × DeleteTaskResponse) × List Task :=
  if dbFails then ((500, .errBody "Errore eliminazione task"), db)
  else ((200, .success), db.filter (fun t => !(t.id == id)))

/-! ## Angular client gateway (UserService) -/

/-- The user model of the client (`user.model`: id, name, email). -/
structure ClientUser where
  id : Int
  name : String
  email : String
deriving Repr, DecidableEq

/-- The raw failure the `HttpClient` hands to `catchError`: `HttpClient`
surfaces both transport failures and non-2xx responses on this channel. -/
structure TransportErr where
  status : Nat
  message : String
deriving Repr, DecidableEq

/-- Result of the underlying HTTP exchange as seen by the gateway's pipe. -/
inductive HttpResult (α : Type) where
  | ok (value : α)
  | err (e : TransportErr)
deriving Repr, DecidableEq

/-- What a gateway operation delivers to its subscriber: the value, or a
domain-level `Error` carrying only a human-readable message. -/
inductive GatewayResult (α : Type) where
  | ok (value : α)
  | domainErr (message : String)
deriving Repr, DecidableEq

/-- `UserService.getUsers()`: pass a successful response through; on error,
`console.error(...)` (the log component) and
`throwError(() => new Error('Errore nel recupero degli utenti'))`. -/
def getUsersGateway (r : HttpResult (List ClientUser)) :
    GatewayResult (List ClientUser) × List String :=
  match r with
  | .ok users => (.ok users, [])
  | .err _ => (.domainErr "Errore nel recupero degli utenti", ["Errore nel recupero utenti"])

/-- `UserService.addUser(user)`: pass a successful response through; on
error, log and re-signal a domain error. -/
def addUserGateway (r : HttpResult ClientUser) : GatewayResult ClientUser × List String :=
  match r with
  | .ok saved => (.ok saved, [])
  | .err _ => (.domainErr "Errore nell’aggiunta dell’utente.", ["Errore nell’aggiunta utente"])

/-- `UserService.removeUser(id)`: pass a successful response through; on
error, log and re-signal a domain error. -/
def removeUserGateway (r : HttpResult ClientUser) : GatewayResult ClientUser × List String :=
  match r with
  | .ok deleted => (.ok deleted, [])
  | .err _ => (.domainErr "Errore nella cancellazione dell’utente.", ["Errore nella cancellazione utente"])

/-- `UserService.apiUrl`. -/
def apiUrl : String := "http://localhost:8080/api/users"

/-- The URL built by `UserService.removeUser`, from the template literal
with the stray closing brace after the id. -/
def removeUserUrl (id : Nat) : String :=
  apiUrl ++ "/" ++ jsNumToString id ++ "\x7d"

/-- The origin part of `apiUrl`; what follows it is the request path. -/
def serverOrigin : String := "http://localhost:8080"

/-- Path component of a URL on the server's origin. -/
def urlPath (u : String) : String :=
  ⟨u.data.drop serverOrigin.data.length⟩

/-- Consume a literal route part; yield the remaining path characters. -/
def routeRest : List Char → List Char → Option (List Char)
  | [], rest => some rest
  | _ :: _, [] => none
  | p :: ps, c :: cs => if c = p then routeRest ps cs else none

/-- Express route `'/api/users/:id'`: the path must extend `/api/users/` by
one non-empty segment without `/`; that segment is `req.params.id`. -/
def usersIdRoute (path : String) : Option String :=
  match routeRest "/api/users/".data path.data with
  | some seg => if seg ≠ [] ∧ ¬ seg.contains '/' then some ⟨seg⟩ else none
  | none => none

/-! ## Operation sequences over the users store -/

/-- One client-visible mutation of the users store. -/
inductive UserOp where
  | create (body : UserBody)
  | remove (idParam : String)
deriving Repr

/-- The store after one operation (the response is discarded). -/
def applyUserOp (users : List StoredUser) : UserOp → List StoredUser
  | .create b => (postUsersHandler b users).2
  | .remove p => (deleteUsersHandler p users).store

/-- The store after a sequence of operations. -/
def runUserOps (ops : List UserOp) (users : List StoredUser) : List StoredUser :=
  ops.foldl applyUserOp users

/-- The store after a sequence of create calls. -/
def runCreates (bodies : List UserBody) (users : List StoredUser) : List StoredUser :=
  bodies.foldl (fun us b => (postUsersHandler b us).2) users

/-- The id sequence `s, s+1, ..., s+n-1`. -/
def seqIds (s : Int) : Nat → List Int
  | 0 => []
  | n + 1 => s :: seqIds (s + 1) n

/-! ## Sample data for concrete scenarios -/

/-- The draft of end-to-end scenario 1, with a client-supplied id. -/
def adaDraft : UserBody := ⟨some 42, some "Ada", some "ada@x.com"⟩

/-- A one-row tasks table: task 5, not yet completed. -/
def sampleTasks : List Task := [⟨5, "Comprare il latte", "al supermercato", false⟩]

/-! ## Helper lemmas -/

theorem removeFirstById_none : ∀ us : List StoredUser, removeFirstById none us = none := by
  intro us
  induction us with
  | nil => rfl
  | cons u us ih => simp [removeFirstById, ih]

theorem toggleCompleted_absent {id : Int} :
    ∀ {db : List Task}, (∀ t ∈ db, t.id ≠ id) → toggleCompleted id db = db := by
  intro db
  induction db with
  | nil => intro _; rfl
  | cons t ts ih =>
    intro h
    have ht : (t.id == id) = false := by
      simp only [beq_eq_false_iff_ne]
      exact h t (List.mem_cons_self t ts)
    simp only [toggleCompleted, List.map_cons, ht, Bool.false_eq_true, if_false]
    have := ih (fun u hu => h u (List.mem_cons_of_mem t hu))
    simp only [toggleCompleted] at this
    rw [this]

theorem selectWhereId_absent {id : Int} :
    ∀ {db : List Task}, (∀ t ∈ db, t.id ≠ id) → selectWhereId id db = [] := by
  intro db h
  simp only [selectWhereId, List.filter_eq_nil_iff]
  intro t ht hb
  exact h t ht (beq_iff_eq.mp hb)

theorem toggleCompleted_involutive (id : Int) (db : List Task) :
    toggleCompleted id (toggleCompleted id db) = db := by
  unfold toggleCompleted
  rw [List.map_map]
  have hpt : ∀ t : Task,
      ((fun t : Task => if t.id == id then { t with completed := !t.completed } else t) ∘
        (fun t : Task => if t.id == id then { t with completed := !t.completed } else t)) t = t := by
    intro t
    cases hc : (t.id == id) with
    | true => simp [Function.comp, hc, Bool.not_not]
    | false => simp [Function.comp, hc]
  calc db.map _ = db.map (fun t => t) := List.map_congr_left (fun t _ => hpt t)
    _ = db := List.map_id' db

theorem find?_toggleCompleted (id : Int) :
    ∀ (db : List Task) (t : Task), db.find? (fun u => u.id == id) = some t →
      (toggleCompleted id db).find? (fun u => u.id == id) =
        some { t with completed := !t.completed } := by
  intro db
  induction db with
  | nil => intro t h; simp at h
  | cons u us ih =>
    intro t h
    cases hc : (u.id == id) with
    | true =>
      have heq : u.id = id := by simpa using hc
      rw [List.find?_cons_of_pos (p := fun v : Task => v.id == id) _ hc] at h
      obtain rfl : t = u := (Option.some.inj h).symm
      have htog : toggleCompleted id (t :: us) =
          { t with completed := !t.completed } :: toggleCompleted id us := by
        simp [toggleCompleted, heq]
      rw [htog, List.find?_cons_of_pos (p := fun v : Task => v.id == id) _ (by simpa using hc)]
    | false =>
      have hne : u.id ≠ id := by simpa using hc
      rw [List.find?_cons_of_neg (p := fun v : Task => v.id == id) _ (by simp [hne])] at h
      have htog : toggleCompleted id (u :: us) = u :: toggleCompleted id us := by
        simp [toggleCompleted, hne]
      rw [htog, List.find?_cons_of_neg (p := fun v : Task => v.id == id) _ (by simp [hne])]
      exact ih t h

theorem selectWhereId_toggle_head (id : Int) :
    ∀ (db : List Task) (t : Task), db.find? (fun u => u.id == id) = some t →
      ∃ rest, selectWhereId id (toggleCompleted id db) =
        { t with completed := !t.completed } :: rest := by
  intro db
  induction db with
  | nil => intro t h; simp at h
  | cons u us ih =>
    intro t h
    cases hc : (u.id == id) with
    | true =>
      have heq : u.id = id := by simpa using hc
      rw [List.find?_cons_of_pos (p := fun v : Task => v.id == id) _ hc] at h
      obtain rfl : t = u := (Option.some.inj h).symm
      have htog : toggleCompleted id (t :: us) =
          { t with completed := !t.completed } :: toggleCompleted id us := by
        simp [toggleCompleted, heq]
      refine ⟨selectWhereId id (toggleCompleted id us), ?_⟩
      rw [htog]
      simp only [selectWhereId, List.filter_cons]
      simp [heq]
    | false =>
      have hne : u.id ≠ id := by simpa using hc
      rw [List.find?_cons_of_neg (p := fun v : Task => v.id == id) _ (by simp [hne])] at h
      obtain ⟨rest, hr⟩ := ih t h
      have htog : toggleCompleted id (u :: us) = u :: toggleCompleted id us := by
        simp [toggleCompleted, hne]
      refine ⟨rest, ?_⟩
      rw [htog]
      simp only [selectWhereId, List.filter_cons]
      simp only [selectWhereId] at hr
      simp [hne, hr]

theorem le_foldlMax : ∀ (l : List Int) (b : Int), b ≤ l.foldl max b := by
  intro l
  induction l with
  | nil => intro b; exact le_refl b
  | cons h t ih => intro b; exact le_trans (le_max_left b h) (ih (max b h))

theorem mem_le_foldlMax {a : Int} : ∀ (l : List Int) (b : Int), a ∈ l → a ≤ l.foldl max b := by
  intro l
  induction l with
  | nil => intro b hm; cases hm
  | cons h t ih =>
    intro b hm
    rcases List.mem_cons.mp hm with rfl | hm
    · exact le_trans (le_max_right b a) (le_foldlMax t (max b a))
    · exact ih (max b h) hm

theorem foldlMax_mem : ∀ (l : List Int) (b : Int), l.foldl max b = b ∨ l.foldl max b ∈ l := by
  intro l
  induction l with
  | nil => intro b; exact Or.inl rfl
  | cons h t ih =>
    intro b
    rcases ih (max b h) with heq | hmem
    · rcases max_choice b h with hb | hh
      · exact Or.inl (by rw [List.foldl_cons, heq, hb])
      · exact Or.inr (by rw [List.foldl_cons, heq, hh]; exact List.mem_cons_self h t)
    · exact Or.inr (List.mem_cons_of_mem h hmem)

/-- The id assigned by a create is strictly above every id already in the
store. -/
theorem nextUserId_gt (users : List StoredUser) :
    ∀ u ∈ users, u.id < nextUserId users := by
  intro u hu
  cases users with
  | nil => cases hu
  | cons v vs =>
    have hle : u.id ≤ (vs.map (fun w => w.id)).foldl max v.id := by
      rcases List.mem_cons.mp hu with rfl | hm
      · exact le_foldlMax _ u.id
      · exact mem_le_foldlMax _ v.id (List.mem_map_of_mem _ hm)
    have hn : nextUserId (v :: vs) = (vs.map (fun w => w.id)).foldl max v.id + 1 := rfl
    omega

/-- On a non-empty store the assigned id is the maximum id plus one: it is
one above an id already present. -/
theorem nextUserId_attained (users : List StoredUser) (h : users ≠ []) :
    ∃ u ∈ users, nextUserId users = u.id + 1 := by
  cases users with
  | nil => exact absurd rfl h
  | cons v vs =>
    have hn : nextUserId (v :: vs) = (vs.map (fun w => w.id)).foldl max v.id + 1 := rfl
    rcases foldlMax_mem (vs.map (fun w => w.id)) v.id with heq | hmem
    · exact ⟨v, List.mem_cons_self v vs, by rw [hn, heq]⟩
    · rcases List.mem_map.mp hmem with ⟨u, hu, hid⟩
      exact ⟨u, List.mem_cons_of_mem v hu, by rw [hn, hid]⟩

theorem seqIds_foldl_max : ∀ (m : Nat) (s b : Int),
    (seqIds s (m + 1)).foldl max b = max b (s + m) := by
  intro m
  induction m with
  | zero => intro s b; simp [seqIds]
  | succ k ih =>
    intro s b
    show (seqIds (s + 1) (k + 1)).foldl max (max b s) = max b (s + (k + 1 : Nat))
    rw [ih (s + 1) (max b s), max_assoc]
    have h1 : max s (s + 1 + (k : Int)) = s + 1 + k := max_eq_right (by omega)
    have h2 : s + 1 + (k : Int) = s + ((k : Nat) + 1 : Nat) := by push_cast; ring
    rw [h1, h2]

theorem nextUserId_seq (users : List StoredUser) (m : Nat)
    (h : users.map (fun u => u.id) = seqIds 1 m) :
    nextUserId users = (m : Int) + 1 := by
  cases users with
  | nil =>
    cases m with
    | zero => rfl
    | succ k => simp [seqIds] at h
  | cons v vs =>
    cases m with
    | zero => simp [seqIds] at h
    | succ k =>
      have hmap : v.id :: vs.map (fun u => u.id) = (1 : Int) :: seqIds 2 k := by
        simpa [seqIds] using h
      have hv : v.id = 1 := (List.cons.injEq _ _ _ _ ▸ hmap).1
      have hvs : vs.map (fun u => u.id) = seqIds 2 k := (List.cons.injEq _ _ _ _ ▸ hmap).2
      have hn : nextUserId (v :: vs) = (vs.map (fun w => w.id)).foldl max v.id + 1 := rfl
      rw [hn, hvs, hv]
      cases k with
      | zero => rfl
      | succ j =>
        rw [seqIds_foldl_max j 2 1]
        have : max (1 : Int) (2 + (j : Int)) = 2 + j := max_eq_right (by omega)
        rw [this]
        push_cast
        ring

theorem seqIds_snoc : ∀ (m : Nat) (s : Int), seqIds s m ++ [s + (m : Int)] = seqIds s (m + 1) := by
  intro m
  induction m with
  | zero => intro s; simp [seqIds]
  | succ k ih =>
    intro s
    show s :: (seqIds (s + 1) k ++ [s + ((k : Nat) + 1 : Nat)]) = s :: seqIds (s + 1) (k + 1)
    have hc : s + ((k : Nat) + 1 : Nat) = (s + 1) + (k : Int) := by push_cast; ring
    rw [hc, ih (s + 1)]

/-- From a store whose ids are exactly `1..m` in order, a sequence of
creates extends the ids to exactly `1..m+len` in order. -/
theorem runCreates_ids : ∀ (bodies : List UserBody) (users : List StoredUser) (m : Nat),
    users.map (fun u => u.id) = seqIds 1 m →
    (runCreates bodies users).map (fun u => u.id) = seqIds 1 (m + bodies.length) := by
  intro bodies
  induction bodies with
  | nil => intro users m h; simpa [runCreates] using h
  | cons b bs ih =>
    intro users m h
    have hstep : runCreates (b :: bs) users = runCreates bs ((postUsersHandler b users).2) := rfl
    rw [hstep]
    have hnew : ((postUsersHandler b users).2).map (fun u => u.id) = seqIds 1 (m + 1) := by
      have hm : ((postUsersHandler b users).2).map (fun u => u.id) =
          users.map (fun u => u.id) ++ [nextUserId users] := by
        simp [postUsersHandler]
      rw [hm, h, nextUserId_seq users m h]
      have : (m : Int) + 1 = (1 : Int) + (m : Int) := by ring
      rw [this, seqIds_snoc m 1]
    have := ih ((postUsersHandler b users).2) (m + 1) hnew
    rw [this]
    have : m + 1 + bs.length = m + (b :: bs).length := by simp; omega
    rw [this]

/-- The store left by a successful splice is a sublist of the original
store. -/
theorem removeFirstById_sublist (pid : Option Int) :
    ∀ (users rest : List StoredUser) (d : StoredUser),
      removeFirstById pid users = some (d, rest) → rest.Sublist users := by
  intro users
  induction users with
  | nil => intro rest d h; simp [removeFirstById] at h
  | cons u us ih =>
    intro rest d h
    simp only [removeFirstById] at h
    split at h
    · obtain ⟨rfl, rfl⟩ : u = d ∧ us = rest := by
        have := Option.some.inj h
        exact ⟨congrArg Prod.fst this, congrArg Prod.snd this⟩
      exact List.sublist_cons_self _ _
    · rcases Option.map_eq_some'.mp h with ⟨⟨d0, rest0⟩, heq, hfe⟩
      have hd : d0 = d := congrArg Prod.fst hfe
      have hr : u :: rest0 = rest := congrArg Prod.snd hfe
      rw [← hr]
      exact (ih rest0 d0 heq).cons₂ u

/-- Every operation preserves distinctness of the stored ids. -/
theorem applyUserOp_nodup (users : List StoredUser) (op : UserOp)
    (h : (users.map (fun u => u.id)).Nodup) :
    ((applyUserOp users op).map (fun u => u.id)).Nodup := by
  cases op with
  | create b =>
    have hm : (applyUserOp users (UserOp.create b)) =
        users ++ [{ id := nextUserId users, name := b.name, email := b.email }] := rfl
    rw [hm, List.map_append]
    rw [List.nodup_append]
    refine ⟨h, List.nodup_singleton _, ?_⟩
    intro a ha hb
    have hab : a = nextUserId users := by simpa using hb
    subst hab
    rcases List.mem_map.mp ha with ⟨u, hu, hid⟩
    exact absurd hid (ne_of_lt (nextUserId_gt users u hu))
  | remove p =>
    show ((deleteUsersHandler p users).store.map (fun u => u.id)).Nodup
    unfold deleteUsersHandler
    cases hr : removeFirstById (jsParseInt p) users with
    | none => exact h
    | some dr =>
      have hsub := removeFirstById_sublist (jsParseInt p) users dr.2 dr.1 (by rw [hr])
      exact h.sublist (hsub.map (fun u => u.id))

theorem patchTaskHandler_ok (id : Int) (db : List Task) :
    patchTaskHandler id false db =
      (match selectWhereId id (toggleCompleted id db) with
       | [] => ((200, TaskResponse.undef), toggleCompleted id db)
       | t :: _ => ((200, TaskResponse.entity t), toggleCompleted id db)) := rfl

theorem digitChar_spec {v : Nat} (h : v < 10) :
    isDigitChar (Nat.digitChar v) = true ∧ (Nat.digitChar v).toNat = 48 + v := by
  interval_cases v <;> exact ⟨rfl, rfl⟩

theorem toDecRev_digits : ∀ n : Nat, ∀ c ∈ toDecRev n, isDigitChar c = true := by
  intro n
  induction n using Nat.strong_induction_on with
  | _ n ih =>
    intro c hc
    rw [toDecRev] at hc
    split at hc
    · next h =>
      have hcn : c = Nat.digitChar n := by simpa using hc
      rw [hcn]
      exact (digitChar_spec h).1
    · next h =>
      rcases List.mem_cons.mp hc with rfl | hm
      · exact (digitChar_spec (Nat.mod_lt n (by omega))).1
      · exact ih (n / 10) (Nat.div_lt_self (by omega) (by omega)) c hm

theorem toDecRev_ne_nil (n : Nat) : toDecRev n ≠ [] := by
  rw [toDecRev]
  split <;> simp

theorem digitsValue_append_digit (ds : List Char) (c : Char) :
    digitsValue (ds ++ [c]) = 10 * digitsValue ds + (c.toNat - 48) := by
  simp [digitsValue, List.foldl_append]

/-- The decimal digit string of `n` evaluates back to `n`. -/
theorem toDecRev_value : ∀ n : Nat, digitsValue (toDecRev n).reverse = n := by
  intro n
  induction n using Nat.strong_induction_on with
  | _ n ih =>
    rw [toDecRev]
    split
    · next h =>
      have h48 := (digitChar_spec h).2
      simp [digitsValue]
      omega
    · next h =>
      rw [List.reverse_cons, digitsValue_append_digit]
      rw [ih (n / 10) (Nat.div_lt_self (by omega) (by omega))]
      have h48 := (digitChar_spec (Nat.mod_lt n (show 0 < 10 by omega))).2
      omega

theorem takeWhile_of_all {p : Char → Bool} :
    ∀ l : List Char, (∀ c ∈ l, p c = true) → l.takeWhile p = l := by
  intro l
  induction l with
  | nil => intro _; rfl
  | cons c cs ih =>
    intro h
    rw [List.takeWhile_cons, if_pos (h c (List.mem_cons_self c cs))]
    rw [ih (fun x hx => h x (List.mem_cons_of_mem c hx))]

theorem takeWhile_append_stop {p : Char → Bool} :
    ∀ (l : List Char) (c : Char) (rest : List Char),
      (∀ x ∈ l, p x = true) → p c = false →
      (l ++ c :: rest).takeWhile p = l := by
  intro l
  induction l with
  | nil =>
    intro c rest _ hc
    rw [List.nil_append, List.takeWhile_cons, if_neg]
    simp [hc]
  | cons a t ih =>
    intro c rest h hc
    rw [List.cons_append, List.takeWhile_cons, if_pos (h a (List.mem_cons_self a t))]
    rw [ih c rest (fun x hx => h x (List.mem_cons_of_mem a hx)) hc]

theorem jsParseIntCore_digits (ds : List Char) (tail : List Char)
    (hne : ds ≠ []) (htw : (ds ++ tail).takeWhile isDigitChar = ds) :
    jsParseIntCore (ds ++ tail) = some (digitsValue ds) := by
  have hdef : jsParseIntCore (ds ++ tail) =
      if ((ds ++ tail).takeWhile isDigitChar).isEmpty then none
      else some (digitsValue ((ds ++ tail).takeWhile isDigitChar)) := rfl
  rw [hdef, htw, if_neg]
  simpa using hne

theorem jsParseIntList_cons_digit (c : Char) (cs : List Char) (h : isDigitChar c = true) :
    jsParseIntList (c :: cs) = (jsParseIntCore (c :: cs)).map (fun v => (v : Int)) := by
  have h1 : c ≠ '-' := by rintro rfl; exact absurd h (by decide)
  have h2 : c ≠ '+' := by rintro rfl; exact absurd h (by decide)
  simp [jsParseIntList, h1, h2]

/-- `parseInt` of the digit string of `n` followed by anything that the
digit scan stops at recovers exactly `n`. -/
theorem jsParseInt_decimal (n : Nat) (tail : List Char)
    (htw : ((toDecRev n).reverse ++ tail).takeWhile isDigitChar = (toDecRev n).reverse) :
    jsParseIntList ((toDecRev n).reverse ++ tail) = some (n : Int) := by
  obtain ⟨d, ds, hcons⟩ : ∃ d ds, (toDecRev n).reverse = d :: ds := by
    cases hrev : (toDecRev n).reverse with
    | nil => exact absurd (by simpa using hrev) (toDecRev_ne_nil n)
    | cons d ds => exact ⟨d, ds, rfl⟩
  have hd : isDigitChar d = true := by
    have hmem : d ∈ (toDecRev n).reverse := by rw [hcons]; exact List.mem_cons_self d ds
    exact toDecRev_digits n d (List.mem_reverse.mp hmem)
  rw [hcons] at htw ⊢
  rw [List.cons_append, jsParseIntList_cons_digit d _ hd, ← List.cons_append]
  rw [jsParseIntCore_digits (d :: ds) tail (by simp) htw]
  have hval : digitsValue (d :: ds) = n := by rw [← hcons]; exact toDecRev_value n
  rw [hval]
  simp

theorem jsParseInt_numString (n : Nat) : jsParseInt (jsNumToString n) = some (n : Int) := by
  have hdata : (jsNumToString n).data = (toDecRev n).reverse := rfl
  rw [jsParseInt, hdata]
  have := jsParseInt_decimal n []
    (by rw [List.append_nil]
        exact takeWhile_of_all _ (fun c hc => toDecRev_digits n c (List.mem_reverse.mp hc)))
  simpa using this

theorem jsParseInt_numString_brace (n : Nat) :
    jsParseInt (jsNumToString n ++ "\x7d") = some (n : Int) := by
  have hdata : (jsNumToString n ++ "\x7d").data = (toDecRev n).reverse ++ ['\x7d'] := rfl
  rw [jsParseInt, hdata]
  exact jsParseInt_decimal n ['\x7d']
    (takeWhile_append_stop _ '\x7d' []
      (fun c hc => toDecRev_digits n c (List.mem_reverse.mp hc)) (by decide))

theorem routeRest_append : ∀ (pre rest : List Char), routeRest pre (pre ++ rest) = some rest := by
  intro pre
  induction pre with
  | nil => intro rest; rfl
  | cons p ps ih => intro rest; simp [routeRest, ih]

theorem urlPath_removeUserUrl (n : Nat) :
    (urlPath (removeUserUrl n)).data = "/api/users/".data ++ ((toDecRev n).reverse ++ ['\x7d']) :=
  rfl

/-- The Express route `'/api/users/:id'` still matches the client's URL
with the stray brace: the captured path parameter is the digit string of
`n` followed by the brace character. -/
theorem usersIdRoute_removeUserUrl (n : Nat) :
    usersIdRoute (urlPath (removeUserUrl n)) = some (jsNumToString n ++ "\x7d") := by
  have h1 : usersIdRoute (urlPath (removeUserUrl n)) =
      (if ((toDecRev n).reverse ++ ['\x7d']) ≠ [] ∧
          ¬ ((toDecRev n).reverse ++ ['\x7d']).contains '/'
       then some ⟨(toDecRev n).reverse ++ ['\x7d']⟩ else none) := by
    unfold usersIdRoute
    rw [urlPath_removeUserUrl n, routeRest_append]
  have hne : ((toDecRev n).reverse ++ ['\x7d']) ≠ [] := by simp
  have hnc : ¬ ((toDecRev n).reverse ++ ['\x7d']).contains '/' := by
    intro hcon
    have hmem : ('/' : Char) ∈ (toDecRev n).reverse ++ ['\x7d'] := by simpa using hcon
    rcases List.mem_append.mp hmem with hm | hm
    · exact absurd (toDecRev_digits n '/' (List.mem_reverse.mp hm)) (by decide)
    · simp at hm
  rw [h1, if_pos ⟨hne, hnc⟩]
  exact congrArg some (String.ext rfl)

/-! ## Claim theorems -/

/-- Claim C1 (status: code_bug) — the claim says a delete for an absent id
answers 404 with an error body on both servers; the code does not.  On the
users server the fallback is the misspelt statement `esle`, so for id 99 on
the initial store the handler sends nothing and throws (Express then
answers 500, not 404); on the tasks server the delete of an absent id still
answers 200 `{success:true}` and leaves the table unchanged. -/
theorem C1_delete_absent_id_eval :
    deleteUsersHandler "99" initialUsers = ⟨initialUsers, none, true⟩ ∧
    (deleteTaskHandler 99 false sampleTasks).1 = (200, DeleteTaskResponse.success) ∧
    (deleteTaskHandler 99 false sampleTasks).2 = sampleTasks := by
  refine ⟨by decide, rfl, by decide⟩

/-- Claim C2 (status: confirmed) — starting from an empty store, any
sequence of creates yields the ids `1, 2, ..., n` in order (the i-th create
assigns id i); on the empty store a create assigns id 1; and on any
non-empty store the assigned id is `max(existing ids) + 1`: it is one above
some existing id and strictly above every existing id. -/
theorem C2_create_id_assignment :
    (∀ bodies : List UserBody,
      (runCreates bodies []).map (fun u => u.id) = seqIds 1 bodies.length) ∧
    (∀ body : UserBody, (postUsersHandler body []).1.2.id = 1) ∧
    (∀ (body : UserBody) (users : List StoredUser), users ≠ [] →
      (∃ u ∈ users, (postUsersHandler body users).1.2.id = u.id + 1) ∧
      (∀ u ∈ users, u.id < (postUsersHandler body users).1.2.id)) := by
  refine ⟨fun bodies => ?_, fun body => rfl, fun body users h => ⟨?_, ?_⟩⟩
  · simpa using runCreates_ids bodies [] 0 rfl
  · exact nextUserId_attained users h
  · exact nextUserId_gt users

/-- Witness for claim C2 on the concrete non-empty initial store: the
create of the Ada draft assigns an id one above an existing id and above
every existing id. -/
theorem C2_create_id_assignment_witness :
    (∃ u ∈ initialUsers, (postUsersHandler adaDraft initialUsers).1.2.id = u.id + 1) ∧
    (∀ u ∈ initialUsers, u.id < (postUsersHandler adaDraft initialUsers).1.2.id) :=
  C2_create_id_assignment.2.2 adaDraft initialUsers (by decide)

/-- Claim C3 (status: confirmed) — when a task with the requested id is in
the table (the `find?` hypothesis names the first such row), a `PATCH`
call answers 200 with exactly that task, its `completed` field flipped
once; a second `PATCH` on the same id answers the original task again and
restores the whole table. -/
theorem C3_patch_toggles_completed :
    ∀ (id : Int) (t : Task) (db : List Task),
      db.find? (fun u => u.id == id) = some t →
      (patchTaskHandler id false db).1 =
        (200, TaskResponse.entity { t with completed := !t.completed }) ∧
      (patchTaskHandler id false (patchTaskHandler id false db).2).1 =
        (200, TaskResponse.entity t) ∧
      (patchTaskHandler id false (patchTaskHandler id false db).2).2 = db := by
  intro id t db h
  obtain ⟨rest, hsel⟩ := selectWhereId_toggle_head id db t h
  have h2 := find?_toggleCompleted id db t h
  obtain ⟨rest2, hsel2⟩ :=
    selectWhereId_toggle_head id (toggleCompleted id db) { t with completed := !t.completed } h2
  have hstore : (patchTaskHandler id false db).2 = toggleCompleted id db := by
    rw [patchTaskHandler_ok id db, hsel]
  refine ⟨?_, ?_, ?_⟩
  · rw [patchTaskHandler_ok id db, hsel]
  · rw [hstore, patchTaskHandler_ok id (toggleCompleted id db), hsel2]
    simp [Bool.not_not]
  · rw [hstore, patchTaskHandler_ok id (toggleCompleted id db), hsel2]
    exact toggleCompleted_involutive id db

/-- Witness for claim C3 at the concrete table `[task 5, completed:false]`
(end-to-end scenario 3): the first `PATCH /api/tasks/5` answers the task
with `completed:true`, the second answers it with `completed:false` again
and restores the table. -/
theorem C3_patch_toggles_completed_witness :
    (patchTaskHandler 5 false sampleTasks).1 =
      (200, TaskResponse.entity ⟨5, "Comprare il latte", "al supermercato", true⟩) ∧
    (patchTaskHandler 5 false (patchTaskHandler 5 false sampleTasks).2).1 =
      (200, TaskResponse.entity ⟨5, "Comprare il latte", "al supermercato", false⟩) ∧
    (patchTaskHandler 5 false (patchTaskHandler 5 false sampleTasks).2).2 = sampleTasks :=
  C3_patch_toggles_completed 5 ⟨5, "Comprare il latte", "al supermercato", false⟩ sampleTasks
    (by decide)

/-- Claim C4 counterexample — `PATCH /api/tasks/99` on a table without id
99 (with the database reachable) answers 200 with the serialisation of
`undefined`, not 404. -/
theorem C4_patch_absent_counterexample :
    (patchTaskHandler 99 false sampleTasks).1 = (200, TaskResponse.undef) ∧
    (patchTaskHandler 99 false sampleTasks).1.1 ≠ 404 := by
  exact ⟨rfl, by decide⟩

/-- Claim C4 (status: corrected) — amended: for every id with no
corresponding task, `PATCH /api/tasks/:id` answers 200 with an empty body
(`res.json(rows[0])` of an empty row set) and leaves the table unchanged;
the handler has no 404 branch. -/
theorem C4_patch_absent_amended :
    ∀ (id : Int) (db : List Task), (∀ t ∈ db, t.id ≠ id) →
      patchTaskHandler id false db = ((200, TaskResponse.undef), db) := by
  intro id db h
  have hstore : patchTaskHandler id false db =
      (match selectWhereId id (toggleCompleted id db) with
       | [] => ((200, TaskResponse.undef), toggleCompleted id db)
       | t :: _ => ((200, TaskResponse.entity t), toggleCompleted id db)) := rfl
  rw [hstore, toggleCompleted_absent h, selectWhereId_absent h]

/-- Witness for the amended claim C4 at the concrete absent id 99. -/
theorem C4_patch_absent_amended_witness :
    patchTaskHandler 99 false sampleTasks = ((200, TaskResponse.undef), sampleTasks) :=
  C4_patch_absent_amended 99 sampleTasks (by decide)

/-- Claim C5 counterexample — a create body with no email field is accepted
with a 200 success response (no validation), and the non-numeric path id
`"abc"` on the users delete route produces no 400: the handler sends
nothing and throws (`parseInt` gives `NaN`, nothing matches, and the
misspelt `esle` fallback throws, so Express answers 500). -/
theorem C5_no_validation_counterexample :
    (postUsersHandler ⟨none, some "X", none⟩ initialUsers).1.1 = 200 ∧
    (postUsersHandler ⟨none, some "X", none⟩ initialUsers).1.1 ≠ 400 ∧
    deleteUsersHandler "abc" initialUsers = ⟨initialUsers, none, true⟩ := by
  refine ⟨rfl, by decide, by decide⟩

/-- Claim C5 (status: corrected) — amended: no handler validates its input
or ever answers 400.  Creates always answer 200 whatever the body; the
users delete handler itself only ever sends 200 responses; the tasks
handlers answer only 200 or 500; and a path id whose `parseInt` is `NaN`
matches no entity, so the users delete falls into the throwing `esle`
fallback (Express answers 500, not 400). -/
theorem C5_no_validation_amended :
    (∀ (body : UserBody) (users : List StoredUser), (postUsersHandler body users).1.1 = 200) ∧
    (∀ users : List StoredUser, (getUsersHandler users).1 = 200) ∧
    (∀ (p : String) (users : List StoredUser),
      (deleteUsersHandler p users).sent = none ∨
      ∃ d, (deleteUsersHandler p users).sent = some (200, d)) ∧
    (∀ (id : Int) (dbFails : Bool) (db : List Task),
      (patchTaskHandler id dbFails db).1.1 = 200 ∨ (patchTaskHandler id dbFails db).1.1 = 500) ∧
    (∀ (id : Int) (dbFails : Bool) (db : List Task),
      (deleteTaskHandler id dbFails db).1.1 = 200 ∨ (deleteTaskHandler id dbFails db).1.1 = 500) ∧
    (∀ (s : String) (users : List StoredUser),
      jsParseInt s = none → deleteUsersHandler s users = ⟨users, none, true⟩) := by
  refine ⟨fun _ _ => rfl, fun _ => rfl, fun p users => ?_, fun id f db => ?_, fun id f db => ?_,
    fun s users h => ?_⟩
  · unfold deleteUsersHandler
    cases removeFirstById (jsParseInt p) users with
    | none => exact Or.inl rfl
    | some d => exact Or.inr ⟨d.1, rfl⟩
  · cases f with
    | true => exact Or.inr rfl
    | false =>
      have h : patchTaskHandler id false db =
          (match selectWhereId id (toggleCompleted id db) with
           | [] => ((200, TaskResponse.undef), toggleCompleted id db)
           | t :: _ => ((200, TaskResponse.entity t), toggleCompleted id db)) := rfl
      rw [h]
      cases selectWhereId id (toggleCompleted id db) with
      | nil => exact Or.inl rfl
      | cons t ts => exact Or.inl rfl
  · cases f with
    | true => exact Or.inr rfl
    | false => exact Or.inl rfl
  · unfold deleteUsersHandler
    rw [h, removeFirstById_none]

/-- Witness for the amended claim C5: the hypothesis-bearing conjunct at
the concrete non-numeric id `"abc"`. -/
theorem C5_no_validation_amended_witness :
    deleteUsersHandler "abc" initialUsers = ⟨initialUsers, none, true⟩ :=
  C5_no_validation_amended.2.2.2.2.2 "abc" initialUsers (by decide)

/-- Claim C6 (status: confirmed) — a create stores and returns an entity
whose non-id fields are the draft's fields unchanged and whose id is the
server-assigned next id; any client-supplied id in the body is ignored; and
on the initial store (ids 1 and 2) the draft `{name:"Ada",
email:"ada@x.com"}` — even carrying a client id — yields
`{id:3, name:"Ada", email:"ada@x.com"}`, appended to the store. -/
theorem C6_create_round_trip :
    (∀ (body : UserBody) (users : List StoredUser) (cid : Option Int),
      (postUsersHandler body users).1.2.name = body.name ∧
      (postUsersHandler body users).1.2.email = body.email ∧
      (postUsersHandler body users).1.2.id = nextUserId users ∧
      postUsersHandler { body with id := cid } users = postUsersHandler body users ∧
      (postUsersHandler body users).2 = users ++ [(postUsersHandler body users).1.2]) ∧
    postUsersHandler adaDraft initialUsers =
      ((200, ⟨3, some "Ada", some "ada@x.com"⟩),
        initialUsers ++ [⟨3, some "Ada", some "ada@x.com"⟩]) := by
  exact ⟨fun _ _ _ => ⟨rfl, rfl, rfl, rfl, rfl⟩, by decide⟩

/-- Claim C7 (status: confirmed) — when the query of `GET /api/tasks`
fails, the catch branch answers 500 with exactly
`{error: "Errore nel recupero tasks"}`; when it succeeds, the handler
answers 200 with the full row set; and in every case the handler returns
one of these two responses, so no partial data is sent and no rejection
escapes the handler. -/
theorem C7_get_tasks_db_failure :
    ∀ db : List Task,
      getTasksHandler true db = (500, TasksListResponse.errBody "Errore nel recupero tasks") ∧
      getTasksHandler false db = (200, TasksListResponse.rows db) ∧
      ∀ dbFails, getTasksHandler dbFails db = (200, TasksListResponse.rows db) ∨
        getTasksHandler dbFails db =
          (500, TasksListResponse.errBody "Errore nel recupero tasks") := by
  intro db
  refine ⟨rfl, rfl, fun dbFails => ?_⟩
  cases dbFails with
  | false => exact Or.inl rfl
  | true => exact Or.inr rfl

/-- Claim C8 (status: confirmed) — each gateway operation maps any failure
surfaced by the HTTP client (transport failure or non-2xx response) to a
logged domain-level error carrying only its fixed human-readable message,
whatever the raw error was; a successful response is passed through
unchanged.  The caller therefore only ever sees the value or the domain
error, never the raw `TransportErr`. -/
theorem C8_gateway_domain_errors :
    ∀ (e : TransportErr) (us : List ClientUser) (u v : ClientUser),
      getUsersGateway (.err e) =
        (.domainErr "Errore nel recupero degli utenti", ["Errore nel recupero utenti"]) ∧
      addUserGateway (.err e) =
        (.domainErr "Errore nell’aggiunta dell’utente.", ["Errore nell’aggiunta utente"]) ∧
      removeUserGateway (.err e) =
        (.domainErr "Errore nella cancellazione dell’utente.",
          ["Errore nella cancellazione utente"]) ∧
      getUsersGateway (.ok us) = (.ok us, []) ∧
      addUserGateway (.ok u) = (.ok u, []) ∧
      removeUserGateway (.ok v) = (.ok v, []) :=
  fun _ _ _ _ => ⟨rfl, rfl, rfl, rfl, rfl, rfl⟩

/-- Claim C9 (status: confirmed) — after any sequence of create and delete
operations applied to the users store from its initial state, the stored
ids are pairwise distinct: creates (also after deletions) append an id
strictly above every present id, and deletes only remove entities. -/
theorem C9_id_uniqueness_invariant :
    ∀ ops : List UserOp, ((runUserOps ops initialUsers).map (fun u => u.id)).Nodup := by
  have main : ∀ (ops : List UserOp) (users : List StoredUser),
      (users.map (fun u => u.id)).Nodup →
      ((runUserOps ops users).map (fun u => u.id)).Nodup := by
    intro ops
    induction ops with
    | nil => intro users h; exact h
    | cons op ops ih => intro users h; exact ih (applyUserOp users op) (applyUserOp_nodup users op h)
  intro ops
  exact main ops initialUsers (by decide)

/-- Claim C10 (status: confirmed) — `removeUser` builds its DELETE URL with
a stray `\x7d` after the id, yet the server's `/api/users/:id` route still
matches that path, the captured parameter is the digit string of `n`
followed by the brace, `parseInt` of that parameter is exactly `n`, and the
delete handler behaves identically to one called with the clean id. -/
theorem C10_remove_user_stray_brace :
    ∀ (n : Nat) (users : List StoredUser),
      usersIdRoute (urlPath (removeUserUrl n)) = some (jsNumToString n ++ "\x7d") ∧
      jsParseInt (jsNumToString n ++ "\x7d") = some (n : Int) ∧
      deleteUsersHandler (jsNumToString n ++ "\x7d") users =
        deleteUsersHandler (jsNumToString n) users := by
  intro n users
  refine ⟨usersIdRoute_removeUserUrl n, jsParseInt_numString_brace n, ?_⟩
  unfold deleteUsersHandler
  rw [jsParseInt_numString_brace n, jsParseInt_numString n]

end RestApp
